import Mathlib

/-!
Verification of the calendar/scheduling core of the Mergington High School
API (`src/app.py`): recurrence expansion, conflict detection, and the event
store operations.  Python datetimes are embedded at minute resolution as a
Gregorian calendar date plus minutes since midnight; ISO strings are
represented by the datetime/date values they denote.
-/

set_option maxRecDepth 10000
set_option maxHeartbeats 2000000

/-- Calendar date (year, month, day), modelling Python `datetime.date`. -/
structure Date where
  year : Nat
  month : Nat
  day : Nat
deriving DecidableEq, Repr

/-- Gregorian leap-year test, as used by Python `datetime`. -/
def isLeapYear (y : Nat) : Bool :=
  y % 4 == 0 && (y % 100 != 0 || y % 400 == 0)

/-- Number of days in month `m` of year `y` (Gregorian). -/
def daysInMonth (y m : Nat) : Nat :=
  if m = 2 then (if isLeapYear y then 29 else 28)
  else if m = 4 ∨ m = 6 ∨ m = 9 ∨ m = 11 then 30
  else 31

/-- Days in year `y` that precede the first day of month `m`. -/
def daysBeforeMonth (y m : Nat) : Nat :=
  let l := if isLeapYear y then 1 else 0
  match m with
  | 1 => 0
  | 2 => 31
  | 3 => 59 + l
  | 4 => 90 + l
  | 5 => 120 + l
  | 6 => 151 + l
  | 7 => 181 + l
  | 8 => 212 + l
  | 9 => 243 + l
  | 10 => 273 + l
  | 11 => 304 + l
  | 12 => 334 + l
  | _ => 0

/-- Number of days from 0001-01-01 (ordinal 0) to the given date. -/
def Date.ordinal (d : Date) : Nat :=
  365 * (d.year - 1) + (d.year - 1) / 4 - (d.year - 1) / 100 + (d.year - 1) / 400
    + daysBeforeMonth d.year d.month + (d.day - 1)

/-- A date that Python `datetime.date` would accept. -/
def Date.Valid (d : Date) : Prop :=
  1 ≤ d.year ∧ 1 ≤ d.month ∧ d.month ≤ 12 ∧ 1 ≤ d.day ∧ d.day ≤ daysInMonth d.year d.month

instance (d : Date) : Decidable d.Valid := by
  unfold Date.Valid
  infer_instance

/-- The day after `d`. -/
def Date.next (d : Date) : Date :=
  if d.day < daysInMonth d.year d.month then ⟨d.year, d.month, d.day + 1⟩
  else if d.month < 12 then ⟨d.year, d.month + 1, 1⟩
  else ⟨d.year + 1, 1, 1⟩

/-- The day before `d` (0001-01-01 maps to the out-of-range 0000-12-31,
which the lemmas below exclude). -/
def Date.prev (d : Date) : Date :=
  if 2 ≤ d.day then ⟨d.year, d.month, d.day - 1⟩
  else if 2 ≤ d.month then ⟨d.year, d.month - 1, daysInMonth d.year (d.month - 1)⟩
  else ⟨d.year - 1, 12, 31⟩

/-- `d` plus `n` days. -/
def Date.addDays (d : Date) : Nat → Date
  | 0 => d
  | n + 1 => (d.addDays n).next

/-- `d` minus `n` days. -/
def Date.subDays (d : Date) : Nat → Date
  | 0 => d
  | n + 1 => (d.subDays n).prev

/-- A naive Python `datetime` at minute resolution: a calendar date plus
minutes since midnight. -/
structure DateTime where
  date : Date
  time : Nat
deriving DecidableEq, Repr

/-- Minutes from 0001-01-01T00:00 to the datetime; chronological position. -/
def DateTime.toMin (t : DateTime) : Nat := 1440 * t.date.ordinal + t.time

/-- Chronological order, Python datetime `<=`. -/
def DateTime.le (a b : DateTime) : Prop := a.toMin ≤ b.toMin

/-- Chronological order, Python datetime `<`. -/
def DateTime.lt (a b : DateTime) : Prop := a.toMin < b.toMin

instance (a b : DateTime) : Decidable (DateTime.le a b) := by
  unfold DateTime.le
  infer_instance

instance (a b : DateTime) : Decidable (DateTime.lt a b) := by
  unfold DateTime.lt
  infer_instance

/-- `t + timedelta(days = n)`. -/
def DateTime.addDays (t : DateTime) (n : Nat) : DateTime := ⟨t.date.addDays n, t.time⟩

/-- Signed difference in minutes between two datetimes
(`a - b` as a Python timedelta). -/
def DateTime.sub (a b : DateTime) : Int := (a.toMin : Int) - (b.toMin : Int)

/-- `t + timedelta` for a signed number `delta` of minutes
(Python datetime + timedelta). -/
def DateTime.addMinutes (t : DateTime) (delta : Int) : DateTime :=
  if 0 ≤ (t.time : Int) + delta then
    ⟨t.date.addDays (((t.time : Int) + delta).toNat / 1440),
     ((t.time : Int) + delta).toNat % 1440⟩
  else
    ⟨t.date.subDays (((-((t.time : Int) + delta)).toNat + 1439) / 1440),
     (((t.time : Int) + delta) + 1440 * ((((-((t.time : Int) + delta)).toNat + 1439) / 1440 : Nat) : Int)).toNat⟩

/-- One monthly-recurrence step: `date.replace` with the next month (rolling
the year in December), keeping the same day of month; `none` models the
`ValueError` that Python `replace` raises when the day does not exist in the
target month. -/
def DateTime.stepMonth (t : DateTime) : Option DateTime :=
  if t.date.month = 12 then
    if t.date.day ≤ daysInMonth (t.date.year + 1) 1 then
      some ⟨⟨t.date.year + 1, 1, t.date.day⟩, t.time⟩
    else none
  else
    if t.date.day ≤ daysInMonth t.date.year (t.date.month + 1) then
      some ⟨⟨t.date.year, t.date.month + 1, t.date.day⟩, t.time⟩
    else none

/-- Python truthiness of an optional string (`None` and `""` are falsy). -/
def strTruthy : Option String → Bool
  | none => false
  | some s => !(s == "")

/-- Python truthiness of an optional int (`None` and `0` are falsy). -/
def natTruthy : Option Nat → Bool
  | none => false
  | some n => !(n == 0)

/-- The stored shape of a calendar event (Python model `CalendarEvent`),
with datetimes and dates as values rather than ISO strings. -/
structure CalendarEvent where
  id : Option Nat
  title : String
  activity_name : String
  description : Option String
  start : DateTime
  «end» : DateTime
  recurrence : Option String
  recurrence_end : Option DateTime
  room : Option String
  color : Option String
  is_cancelled : Bool
  cancellation_dates : List Date
deriving DecidableEq, Repr

/-- The in-memory `calendar_events` dict: insertion-ordered id/event pairs. -/
abbrev EventStore := List (Nat × CalendarEvent)

/-- `calendar_events[event_id]` lookup. -/
def storeGet (store : EventStore) (eid : Nat) : Option CalendarEvent :=
  (store.find? (fun p => p.1 == eid)).map (fun p => p.2)

/-- In-place mutation of the entry with key `eid` (Python dict item update;
used only when the key is present). -/
def storeSet (store : EventStore) (eid : Nat) (ev : CalendarEvent) : EventStore :=
  store.map (fun p => if p.1 = eid then (eid, ev) else p)

/-- A conflict descriptor built by `check_event_conflicts`.  In the
room-specified branch Python includes the other event's room; in the broad
branch the dict has no room key, modelled by `room = none`. -/
structure Conflict where
  event_id : Nat
  title : String
  room : Option String
  start : DateTime
  «end» : DateTime
deriving DecidableEq, Repr

def conflictWithRoom (eid : Nat) (ev : CalendarEvent) : Conflict :=
  ⟨eid, ev.title, ev.room, ev.start, ev.«end»⟩

def conflictNoRoom (eid : Nat) (ev : CalendarEvent) : Conflict :=
  ⟨eid, ev.title, none, ev.start, ev.«end»⟩

/-- `check_event_conflicts(start, end, room, exclude_event_id)` over the
stored events, in insertion order. -/
def check_event_conflicts (store : EventStore) (cstart cend : DateTime)
    (room : Option String) (exclude_event_id : Option Nat) : List Conflict :=
  match store with
  | [] => []
  | (eid, ev) :: rest =>
    if natTruthy exclude_event_id ∧ exclude_event_id = some eid then
      check_event_conflicts rest cstart cend room exclude_event_id
    else if ev.is_cancelled then
      check_event_conflicts rest cstart cend room exclude_event_id
    else if DateTime.lt cstart ev.«end» ∧ DateTime.lt ev.start cend then
      if strTruthy room ∧ ev.room = room then
        conflictWithRoom eid ev :: check_event_conflicts rest cstart cend room exclude_event_id
      else if !(strTruthy room) then
        conflictNoRoom eid ev :: check_event_conflicts rest cstart cend room exclude_event_id
      else
        check_event_conflicts rest cstart cend room exclude_event_id
    else
      check_event_conflicts rest cstart cend room exclude_event_id

/-- Result of `generate_recurring_events`: the produced instances, or the
uncaught `ValueError` raised by the monthly `date.replace` step. -/
inductive GenOutcome where
  | ok (events : List CalendarEvent)
  | err
deriving DecidableEq, Repr

/-- One produced occurrence: `event.copy()` with `start` and `end`
replaced by the current step and current step plus the original duration. -/
def mkInstance (ev : CalendarEvent) (dur : Int) (current : DateTime) : CalendarEvent :=
  { ev with start := current, «end» := current.addMinutes dur }

def GenOutcome.consList (l : List CalendarEvent) : GenOutcome → GenOutcome
  | ok events => ok (l ++ events)
  | err => err

/-- The `while current_dt <= recurrence_end_dt` loop of
`generate_recurring_events`, with explicit fuel: `none` means the fuel ran
out before the loop guard failed (the fuel passed by
`generate_recurring_events` is proved sufficient below). -/
def genLoop (ev : CalendarEvent) (r : String) (dur : Int) (recEnd : DateTime) :
    Nat → DateTime → Option GenOutcome
  | 0, current => if DateTime.le current recEnd then none else some (.ok [])
  | fuel + 1, current =>
    if DateTime.le current recEnd then
      let here := if current.date ∈ ev.cancellation_dates then []
                  else [mkInstance ev dur current]
      if r = "daily" then
        (genLoop ev r dur recEnd fuel (current.addDays 1)).map (GenOutcome.consList here)
      else if r = "weekly" then
        (genLoop ev r dur recEnd fuel (current.addDays 7)).map (GenOutcome.consList here)
      else if r = "monthly" then
        match current.stepMonth with
        | none => some .err
        | some nxt => (genLoop ev r dur recEnd fuel nxt).map (GenOutcome.consList here)
      else some (.ok here)
    else some (.ok [])

/-- The recurrence end bound: `recurrence_end` if set, else start plus 365
days. -/
def effectiveRecEnd (ev : CalendarEvent) : DateTime :=
  match ev.recurrence_end with
  | some re => re
  | none => ev.start.addDays 365

/-- Fuel passed to `genLoop`; proved sufficient for termination below. -/
def genFuel (recEnd : DateTime) : Nat := recEnd.toMin + 2

/-- `generate_recurring_events(event)`. -/
def generate_recurring_events (ev : CalendarEvent) : Option GenOutcome :=
  match ev.recurrence with
  | none => some (.ok [ev])
  | some r =>
    if r = "" then some (.ok [ev])
    else
      genLoop ev r (DateTime.sub ev.«end» ev.start) (effectiveRecEnd ev)
        (genFuel (effectiveRecEnd ev)) ev.start

/-- One recurrence step, as taken at the bottom of the loop body. -/
def stepRec (r : String) (t : DateTime) : Option DateTime :=
  if r = "daily" then some (t.addDays 1)
  else if r = "weekly" then some (t.addDays 7)
  else if r = "monthly" then t.stepMonth
  else none

/-- `k`-fold iteration of the recurrence step. -/
def stepIter (r : String) : Nat → DateTime → Option DateTime
  | 0, t => some t
  | k + 1, t => (stepIter r k t).bind (stepRec r)

/-- Error kinds surfaced by the calendar endpoints (HTTPException cases). -/
inductive ApiError where
  | notFound
  | invalidRange
  | invalidState
  | invalidFormat
deriving DecidableEq, Repr

/-- Partial-update request body (Python model `EventUpdate`); `none` means
the field is absent from the request. -/
structure EventUpdate where
  title : Option String
  description : Option String
  start : Option DateTime
  «end» : Option DateTime
  room : Option String
  color : Option String
  is_cancelled : Option Bool
deriving DecidableEq, Repr

/-- The field-by-field mutation block of `update_event`: each field present
in the request overwrites the stored one, in source order. -/
def applyUpdate (ev : CalendarEvent) (u : EventUpdate) : CalendarEvent :=
  let e1 := match u.title with
    | some v => { ev with title := v }
    | none => ev
  let e2 := match u.description with
    | some v => { e1 with description := some v }
    | none => e1
  let e3 := match u.start with
    | some v => { e2 with start := v }
    | none => e2
  let e4 := match u.«end» with
    | some v => { e3 with «end» := v }
    | none => e3
  let e5 := match u.room with
    | some v => { e4 with room := some v }
    | none => e4
  let e6 := match u.color with
    | some v => { e5 with color := some v }
    | none => e5
  match u.is_cancelled with
  | some v => { e6 with is_cancelled := v }
  | none => e6

/-- Response of a successful update: the stored event, plus the conflict
list when start or end was supplied (`none` models the response without a
conflicts key). -/
structure UpdateResponse where
  event : CalendarEvent
  conflicts : Option (List Conflict)
deriving DecidableEq, Repr

/-- `update_event(event_id, event_update)`: returns the response or error,
paired with the store as left by the handler.  Note the source mutates the
stored dict first and only then validates the dates, so the mutated store
is returned on the `invalidRange` path too. -/
def update_event (store : EventStore) (eid : Nat) (u : EventUpdate) :
    Except ApiError UpdateResponse × EventStore :=
  match storeGet store eid with
  | none => (.error .notFound, store)
  | some ev =>
    let ev1 := applyUpdate ev u
    let store1 := storeSet store eid ev1
    if u.start.isSome ∨ u.«end».isSome then
      if DateTime.le ev1.«end» ev1.start then (.error .invalidRange, store1)
      else
        (.ok ⟨ev1, some (check_event_conflicts store1 ev1.start ev1.«end» ev1.room (some eid))⟩,
         store1)
    else (.ok ⟨ev1, none⟩, store1)

/-- `cancel_event_date(event_id, date_str)`.  A `Date` value is always
well-formed, so the `InvalidFormat` branch for malformed date strings is
unreachable in this embedding. -/
def cancel_event_date (store : EventStore) (eid : Nat) (d : Date) :
    Except ApiError CalendarEvent × EventStore :=
  match storeGet store eid with
  | none => (.error .notFound, store)
  | some ev =>
    if strTruthy ev.recurrence then
      let ev1 := if d ∈ ev.cancellation_dates then ev
                 else { ev with cancellation_dates := ev.cancellation_dates ++ [d] }
      (.ok ev1, storeSet store eid ev1)
    else (.error .invalidState, store)

/-- Roster mapping: activity name to participant emails. -/
abbrev Roster := List (String × List String)

/-- Expansion of every stored template, in store order (the loop at the top
of `get_events` and `export_calendar`); `none` models an uncaught exception
from any single expansion. -/
def expandAll : EventStore → Option (List CalendarEvent)
  | [] => some []
  | (_, ev) :: rest =>
    match generate_recurring_events ev with
    | some (.ok l) => (expandAll rest).map (fun t => l ++ t)
    | _ => none

/-- `get_events(start, end, activity, email)`: expand all templates, then
filter by window overlap, activity name, and the student's activities. -/
def get_events (store : EventStore) (roster : Roster)
    (startF endF : Option DateTime) (activityF emailF : Option String) :
    Option (List CalendarEvent) :=
  match expandAll store with
  | none => none
  | some all =>
    let f1 := match startF with
      | some sd => all.filter (fun ev => decide (DateTime.le sd ev.«end»))
      | none => all
    let f2 := match endF with
      | some ed => f1.filter (fun ev => decide (DateTime.le ev.start ed))
      | none => f1
    let f3 := if strTruthy activityF then
        f2.filter (fun ev => ev.activity_name == activityF.getD "")
      else f2
    let f4 := if strTruthy emailF then
        let studentActs := (roster.filter (fun p => (emailF.getD "") ∈ p.2)).map (fun p => p.1)
        f3.filter (fun ev => ev.activity_name ∈ studentActs)
      else f3
    some f4

/-- The occurrence list serialized by `export_calendar` (expansion plus the
activity and email filters; the iCal text reads only fields these
occurrences carry). -/
def export_selected (store : EventStore) (roster : Roster)
    (activityF emailF : Option String) : Option (List CalendarEvent) :=
  match expandAll store with
  | none => none
  | some all =>
    let f3 := if strTruthy activityF then
        all.filter (fun ev => ev.activity_name == activityF.getD "")
      else all
    let f4 := if strTruthy emailF then
        let studentActs := (roster.filter (fun p => (emailF.getD "") ∈ p.2)).map (fun p => p.1)
        f3.filter (fun ev => ev.activity_name ∈ studentActs)
      else f3
    some f4

def GenOutcome.mapList (f : List CalendarEvent → List CalendarEvent) : GenOutcome → GenOutcome
  | ok l => ok (f l)
  | err => err

/-- Setting the template-level cancellation flag. -/
def setIsCancelled (b : Bool) (ev : CalendarEvent) : CalendarEvent :=
  { ev with is_cancelled := b }

/-- The store with the flag of template `i` set to `b`. -/
def storeSetFlag (store : EventStore) (i : Nat) (b : Bool) : EventStore :=
  store.map (fun p => if p.1 = i then (p.1, setIsCancelled b p.2) else p)

/-- Occurrences compared up to the copied template flag. -/
def forgetFlag (ev : CalendarEvent) : CalendarEvent := setIsCancelled false ev

/-- How a produced instance list changes when one date is added to the
template's cancellation list: that date's instances disappear, and every
remaining copy carries the extended list. -/
def cancelMap (cds : List Date) (d : Date) (l : List CalendarEvent) : List CalendarEvent :=
  (l.filter (fun o => !(o.start.date == d))).map
    (fun o => { o with cancellation_dates := cds ++ [d] })

/-- Occurrence identity up to the copied cancellation-date bookkeeping. -/
def forgetCancelDates (o : CalendarEvent) : CalendarEvent :=
  { o with cancellation_dates := [] }

instance {e a : Type} [DecidableEq e] [DecidableEq a] : DecidableEq (Except e a)
  | .error x, .error y => decidable_of_iff (x = y) (by rw [Except.error.injEq])
  | .error _, .ok _ => isFalse (fun h => Except.noConfusion h)
  | .ok _, .error _ => isFalse (fun h => Except.noConfusion h)
  | .ok x, .ok y => decidable_of_iff (x = y) (by rw [Except.ok.injEq])

def c1event : CalendarEvent :=
  ⟨some 1, "Chess Club Meeting", "Chess Club", none,
   ⟨⟨2024, 12, 6⟩, 930⟩, ⟨⟨2024, 12, 6⟩, 1020⟩,
   none, none, some "Room 101", none, false, []⟩

def c1store : EventStore := [(1, c1event)]

def c1upd : EventUpdate :=
  ⟨none, none, some ⟨⟨2024, 12, 6⟩, 1080⟩, none, none, none, none⟩

def c2event : CalendarEvent :=
  ⟨some 2, "Monthly Meeting", "Chess Club", none,
   ⟨⟨2024, 1, 31⟩, 600⟩, ⟨⟨2024, 1, 31⟩, 660⟩,
   some "monthly", some ⟨⟨2024, 3, 31⟩, 600⟩, none, none, false, []⟩

def c2okEvent : CalendarEvent :=
  ⟨some 3, "Monthly Meeting", "Chess Club", none,
   ⟨⟨2024, 1, 28⟩, 600⟩, ⟨⟨2024, 1, 28⟩, 660⟩,
   some "monthly", some ⟨⟨2024, 3, 31⟩, 600⟩, none, none, false, []⟩

def c4event : CalendarEvent :=
  ⟨some 4, "One Off", "Chess Club", none,
   ⟨⟨2024, 12, 6⟩, 930⟩, ⟨⟨2024, 12, 6⟩, 1020⟩,
   none, none, none, none, false, [⟨2024, 12, 6⟩, ⟨2024, 12, 13⟩]⟩

def c9event : CalendarEvent :=
  ⟨some 5, "Daily Standup", "Chess Club", none,
   ⟨⟨2024, 12, 1⟩, 540⟩, ⟨⟨2024, 12, 1⟩, 570⟩,
   some "daily", none, none, none, false, []⟩

def c3event : CalendarEvent :=
  ⟨some 6, "Programming Class", "Programming Class", none,
   ⟨⟨2024, 12, 3⟩, 930⟩, ⟨⟨2024, 12, 3⟩, 990⟩,
   some "weekly", some ⟨⟨2024, 12, 10⟩, 990⟩, some "Computer Lab", none, false, []⟩

def c3list : List CalendarEvent :=
  [{ c3event with start := ⟨⟨2024, 12, 3⟩, 930⟩, «end» := ⟨⟨2024, 12, 3⟩, 990⟩ },
   { c3event with start := ⟨⟨2024, 12, 10⟩, 930⟩, «end» := ⟨⟨2024, 12, 10⟩, 990⟩ }]

def c3occ : CalendarEvent :=
  { c3event with start := ⟨⟨2024, 12, 10⟩, 930⟩, «end» := ⟨⟨2024, 12, 10⟩, 990⟩ }

def c5event : CalendarEvent :=
  ⟨some 1, "Programming Class", "Programming Class", none,
   ⟨⟨2024, 12, 3⟩, 930⟩, ⟨⟨2024, 12, 3⟩, 990⟩,
   some "weekly", some ⟨⟨2024, 12, 31⟩, 0⟩, some "Computer Lab", none, false, []⟩

def c5store : EventStore := [(1, c5event)]

def c5result : Option (List CalendarEvent) :=
  get_events (cancel_event_date c5store 1 ⟨2024, 12, 10⟩).2 []
    (some ⟨⟨2024, 12, 1⟩, 0⟩) (some ⟨⟨2024, 12, 31⟩, 0⟩) none none

def c6ev : CalendarEvent :=
  ⟨some 1, "Chess Club Meeting", "Chess Club", none,
   ⟨⟨2024, 12, 6⟩, 930⟩, ⟨⟨2024, 12, 6⟩, 1020⟩,
   none, none, some "Room 101", none, false, []⟩

def c6store : EventStore := [(1, c6ev)]

def c7evA : CalendarEvent :=
  ⟨some 1, "Chess Club Meeting", "Chess Club", none,
   ⟨⟨2024, 12, 6⟩, 930⟩, ⟨⟨2024, 12, 6⟩, 1020⟩,
   none, none, some "Room 101", none, false, []⟩

def c7evB : CalendarEvent :=
  ⟨some 2, "Math Club", "Math Club", none,
   ⟨⟨2024, 12, 6⟩, 960⟩, ⟨⟨2024, 12, 6⟩, 1050⟩,
   none, none, some "Room 101", none, false, []⟩

def c7store : EventStore := [(1, c7evA), (2, c7evB)]

def c8event : CalendarEvent :=
  ⟨some 7, "Programming Class", "Programming Class", none,
   ⟨⟨2024, 12, 3⟩, 930⟩, ⟨⟨2024, 12, 3⟩, 990⟩,
   some "weekly", some ⟨⟨2024, 12, 31⟩, 0⟩, some "Computer Lab", none, false, []⟩

def c8store : EventStore := [(7, c8event)]

theorem isLeapYear_spec (y : Nat) :
    isLeapYear y = true ↔ (y % 4 = 0 ∧ (y % 100 ≠ 0 ∨ y % 400 = 0)) := by
  simp [isLeapYear]

theorem daysInMonth_pos (y m : Nat) : 1 ≤ daysInMonth y m := by
  unfold daysInMonth
  split
  · split <;> omega
  · split <;> omega

theorem daysInMonth_ge_28 (y m : Nat) : 28 ≤ daysInMonth y m := by
  unfold daysInMonth
  split
  · split <;> omega
  · split <;> omega

theorem leapAdj_spec (y : Nat) :
    (if isLeapYear y then (1:Nat) else 0)
      = (if y % 4 = 0 ∧ (y % 100 ≠ 0 ∨ y % 400 = 0) then 1 else 0) := by
  by_cases h : y % 4 = 0 ∧ (y % 100 ≠ 0 ∨ y % 400 = 0)
  · rw [if_pos ((isLeapYear_spec y).mpr h), if_pos h]
  · rw [if_neg (fun hb => h ((isLeapYear_spec y).mp hb)), if_neg h]

theorem daysBeforeMonth_one (y : Nat) : daysBeforeMonth y 1 = 0 := rfl

theorem daysBeforeMonth_twelve (y : Nat) :
    daysBeforeMonth y 12 = 334 + (if isLeapYear y then 1 else 0) := rfl

theorem daysBeforeMonth_succ (y m : Nat) (h1 : 1 ≤ m) (h2 : m ≤ 11) :
    daysBeforeMonth y (m + 1) = daysBeforeMonth y m + daysInMonth y m := by
  unfold daysBeforeMonth daysInMonth
  interval_cases m <;> cases h : isLeapYear y <;> simp [h]

@[simp] theorem Date.year_mk (y m d : Nat) : (Date.mk y m d).year = y := rfl

@[simp] theorem Date.month_mk (y m d : Nat) : (Date.mk y m d).month = m := rfl

@[simp] theorem Date.day_mk (y m d : Nat) : (Date.mk y m d).day = d := rfl

theorem Date.ordinal_mk (y m d : Nat) :
    (Date.mk y m d).ordinal =
      365 * (y - 1) + (y - 1) / 4 - (y - 1) / 100 + (y - 1) / 400
        + daysBeforeMonth y m + (d - 1) := rfl

theorem Date.valid_mk (y m d : Nat) :
    (Date.mk y m d).Valid ↔ (1 ≤ y ∧ 1 ≤ m ∧ m ≤ 12 ∧ 1 ≤ d ∧ d ≤ daysInMonth y m) :=
  Iff.rfl

theorem daysInMonth_dec (y : Nat) : daysInMonth y 12 = 31 := by
  norm_num [daysInMonth]

theorem Date.next_valid (d : Date) (hd : d.Valid) : d.next.Valid := by
  obtain ⟨hy, hm1, hm2, hd1, hd2⟩ := hd
  unfold Date.next
  split
  · exact (Date.valid_mk _ _ _).mpr ⟨hy, hm1, hm2, by omega, by omega⟩
  · split
    · exact (Date.valid_mk _ _ _).mpr ⟨hy, by omega, by omega, by omega, daysInMonth_pos _ _⟩
    · exact (Date.valid_mk _ _ _).mpr
        ⟨by omega, by omega, by omega, by omega, daysInMonth_pos _ _⟩

theorem Date.ordinal_next (d : Date) (hd : d.Valid) : d.next.ordinal = d.ordinal + 1 := by
  obtain ⟨hy, hm1, hm2, hd1, hd2⟩ := hd
  unfold Date.next
  split
  · simp only [Date.ordinal_mk, Date.ordinal]
    omega
  · next hlt =>
    split
    · next hm12 =>
      have hs := daysBeforeMonth_succ d.year d.month hm1 (by omega)
      have hp := daysInMonth_pos d.year d.month
      simp only [Date.ordinal_mk, Date.ordinal]
      omega
    · next hm12 =>
      have hm : d.month = 12 := by omega
      have h31 : daysInMonth d.year d.month = 31 := by rw [hm]; exact daysInMonth_dec d.year
      have hday : d.day = 31 := by omega
      simp only [Date.ordinal_mk, Date.ordinal, hm, hday, daysBeforeMonth_one,
        daysBeforeMonth_twelve, leapAdj_spec]
      split
      · omega
      · omega

theorem Date.prev_valid (d : Date) (hd : d.Valid) (h1 : 1 ≤ d.ordinal) : d.prev.Valid := by
  obtain ⟨hy, hm1, hm2, hd1, hd2⟩ := hd
  unfold Date.prev
  split
  · exact (Date.valid_mk _ _ _).mpr ⟨hy, hm1, hm2, by omega, by omega⟩
  · split
    · exact (Date.valid_mk _ _ _).mpr
        ⟨hy, by omega, by omega, daysInMonth_pos _ _, le_refl _⟩
    · have hm : d.month = 1 := by omega
      have hday : d.day = 1 := by omega
      have hy2 : 2 ≤ d.year := by
        by_contra hc
        have hy1 : d.year = 1 := by omega
        simp only [Date.ordinal, hy1, hm, hday, daysBeforeMonth_one] at h1
        omega
      exact (Date.valid_mk _ _ _).mpr
        ⟨by omega, by omega, by omega, by omega, by rw [daysInMonth_dec]⟩

theorem Date.ordinal_prev (d : Date) (hd : d.Valid) (h1 : 1 ≤ d.ordinal) :
    d.prev.ordinal + 1 = d.ordinal := by
  obtain ⟨hy, hm1, hm2, hd1, hd2⟩ := hd
  unfold Date.prev
  split
  · simp only [Date.ordinal_mk, Date.ordinal]
    omega
  · split
    · next hday hmge =>
      have hs := daysBeforeMonth_succ d.year (d.month - 1) (by omega) (by omega)
      have hmm : d.month - 1 + 1 = d.month := by omega
      rw [hmm] at hs
      have hp := daysInMonth_pos d.year (d.month - 1)
      simp only [Date.ordinal_mk, Date.ordinal]
      omega
    · next hday hmlt =>
      have hm : d.month = 1 := by omega
      have hd1' : d.day = 1 := by omega
      have hy2 : 2 ≤ d.year := by
        by_contra hc
        have hy1 : d.year = 1 := by omega
        simp only [Date.ordinal, hy1, hm, hd1', daysBeforeMonth_one] at h1
        omega
      have hvd : Date.Valid ⟨d.year - 1, 12, 31⟩ :=
        (Date.valid_mk _ _ _).mpr
          ⟨by omega, by omega, by omega, by omega, by rw [daysInMonth_dec]⟩
      have hnx : (Date.next ⟨d.year - 1, 12, 31⟩) = ⟨d.year, 1, 1⟩ := by
        unfold Date.next
        simp only [Date.year_mk, Date.month_mk, Date.day_mk, daysInMonth_dec]
        norm_num
        omega
      have hord := Date.ordinal_next ⟨d.year - 1, 12, 31⟩ hvd
      rw [hnx] at hord
      have hdd : d = ⟨d.year, 1, 1⟩ := by
        cases d
        simp_all
      rw [hdd]
      exact hord.symm

theorem Date.addDays_valid (d : Date) (n : Nat) (hd : d.Valid) : (d.addDays n).Valid := by
  induction n with
  | zero => exact hd
  | succ k ih => exact Date.next_valid _ ih

theorem Date.ordinal_addDays (d : Date) (n : Nat) (hd : d.Valid) :
    (d.addDays n).ordinal = d.ordinal + n := by
  induction n with
  | zero => rfl
  | succ k ih =>
    have := Date.ordinal_next (d.addDays k) (Date.addDays_valid d k hd)
    simp only [Date.addDays]
    omega

theorem Date.subDays_spec (d : Date) (n : Nat) (hd : d.Valid) (hn : n ≤ d.ordinal) :
    (d.subDays n).Valid ∧ (d.subDays n).ordinal + n = d.ordinal := by
  induction n with
  | zero => exact ⟨hd, rfl⟩
  | succ k ih =>
    obtain ⟨hv, ho⟩ := ih (by omega)
    have h1 : 1 ≤ (d.subDays k).ordinal := by omega
    refine ⟨Date.prev_valid _ hv h1, ?_⟩
    have := Date.ordinal_prev (d.subDays k) hv h1
    simp only [Date.subDays]
    omega

@[simp] theorem DateTime.date_mk (d : Date) (t : Nat) : (DateTime.mk d t).date = d := rfl

@[simp] theorem DateTime.time_mk (d : Date) (t : Nat) : (DateTime.mk d t).time = t := rfl

theorem DateTime.toMin_addDays (t : DateTime) (n : Nat) (hv : t.date.Valid) :
    (t.addDays n).toMin = t.toMin + 1440 * n := by
  unfold DateTime.addDays DateTime.toMin
  simp only [DateTime.date_mk, DateTime.time_mk, Date.ordinal_addDays t.date n hv]
  ring

theorem DateTime.addDays_date_valid (t : DateTime) (n : Nat) (hv : t.date.Valid) :
    (t.addDays n).date.Valid := Date.addDays_valid t.date n hv

theorem DateTime.toMin_addMinutes (t : DateTime) (delta : Int) (hv : t.date.Valid)
    (hnn : 0 ≤ (t.toMin : Int) + delta) :
    ((t.addMinutes delta).toMin : Int) = (t.toMin : Int) + delta := by
  unfold DateTime.addMinutes
  have htm : t.toMin = 1440 * t.date.ordinal + t.time := rfl
  split
  · next hpos =>
    have hord := Date.ordinal_addDays t.date (((t.time : Int) + delta).toNat / 1440) hv
    unfold DateTime.toMin
    simp only [DateTime.date_mk, DateTime.time_mk, hord]
    omega
  · next hneg =>
    have hk : ((-((t.time : Int) + delta)).toNat + 1439) / 1440 ≤ t.date.ordinal := by
      omega
    obtain ⟨hvv, hord⟩ :=
      Date.subDays_spec t.date (((-((t.time : Int) + delta)).toNat + 1439) / 1440) hv hk
    unfold DateTime.toMin
    simp only [DateTime.date_mk, DateTime.time_mk]
    omega

theorem DateTime.stepMonth_spec (t t' : DateTime) (hv : t.date.Valid)
    (h : t.stepMonth = some t') :
    t'.date.Valid ∧ t'.date.day = t.date.day ∧ t'.time = t.time ∧
      t.toMin + 1440 ≤ t'.toMin := by
  obtain ⟨hy, hm1, hm2, hd1, hd2⟩ := hv
  unfold DateTime.stepMonth at h
  by_cases h12 : t.date.month = 12
  · rw [if_pos h12] at h
    by_cases hle : t.date.day ≤ daysInMonth (t.date.year + 1) 1
    · rw [if_pos hle] at h
      injection h with h
      subst h
      have h31 : daysInMonth t.date.year t.date.month = 31 := by
        rw [h12]
        exact daysInMonth_dec t.date.year
      have hvd : Date.Valid ⟨t.date.year, 12, 31⟩ :=
        (Date.valid_mk _ _ _).mpr
          ⟨hy, by omega, by omega, by omega, by rw [daysInMonth_dec]⟩
      have hnx : (Date.next ⟨t.date.year, 12, 31⟩) = ⟨t.date.year + 1, 1, 1⟩ := by
        unfold Date.next
        simp only [Date.year_mk, Date.month_mk, Date.day_mk, daysInMonth_dec]
        norm_num
      have hord := Date.ordinal_next ⟨t.date.year, 12, 31⟩ hvd
      rw [hnx] at hord
      refine ⟨(Date.valid_mk _ _ _).mpr ⟨by omega, by omega, by omega, by omega, hle⟩,
        rfl, rfl, ?_⟩
      unfold DateTime.toMin
      simp only [DateTime.date_mk, DateTime.time_mk, Date.ordinal_mk, Date.ordinal,
        daysBeforeMonth_one, h12] at hord ⊢
      omega
    · rw [if_neg hle] at h
      exact absurd h (by simp)
  · rw [if_neg h12] at h
    by_cases hle : t.date.day ≤ daysInMonth t.date.year (t.date.month + 1)
    · rw [if_pos hle] at h
      injection h with h
      subst h
      have hs := daysBeforeMonth_succ t.date.year t.date.month hm1 (by omega)
      have hp := daysInMonth_pos t.date.year t.date.month
      refine ⟨(Date.valid_mk _ _ _).mpr ⟨hy, by omega, by omega, by omega, hle⟩,
        rfl, rfl, ?_⟩
      unfold DateTime.toMin
      simp only [DateTime.date_mk, DateTime.time_mk, Date.ordinal_mk, Date.ordinal]
      omega
    · rw [if_neg hle] at h
      exact absurd h (by simp)

theorem DateTime.stepMonth_isSome (t : DateTime)
    (hday : t.date.day ≤ 28) : (t.stepMonth).isSome = true := by
  unfold DateTime.stepMonth
  by_cases h12 : t.date.month = 12
  · rw [if_pos h12, if_pos (le_trans hday (daysInMonth_ge_28 _ _))]
    rfl
  · rw [if_neg h12, if_pos (le_trans hday (daysInMonth_ge_28 _ _))]
    rfl

/-- Which conflicts `check_event_conflicts` reports: exactly the
descriptors of stored, non-excluded, non-cancelled events whose interval
strictly overlaps the candidate, through the room branch that applies. -/
theorem check_event_conflicts_mem (store : EventStore) (cstart cend : DateTime)
    (room : Option String) (excl : Option Nat) (c : Conflict) :
    c ∈ check_event_conflicts store cstart cend room excl ↔
      ∃ p ∈ store, ¬(natTruthy excl = true ∧ excl = some p.1) ∧
        p.2.is_cancelled = false ∧
        DateTime.lt cstart p.2.«end» ∧ DateTime.lt p.2.start cend ∧
        ((strTruthy room = true ∧ p.2.room = room ∧ c = conflictWithRoom p.1 p.2) ∨
         (strTruthy room = false ∧ c = conflictNoRoom p.1 p.2)) := by
  induction store with
  | nil => simp [check_event_conflicts]
  | cons hd tl ih =>
    obtain ⟨eid, ev⟩ := hd
    rw [List.exists_mem_cons_iff]
    simp only [check_event_conflicts]
    split_ifs with h1 h2 h3 h4 h5
    · rw [ih]
      constructor
      · intro h
        exact Or.inr h
      · rintro (⟨hna, _⟩ | h)
        · exact absurd h1 hna
        · exact h
    · rw [ih]
      constructor
      · intro h
        exact Or.inr h
      · rintro (⟨_, hcf, _⟩ | h)
        · rw [h2] at hcf
          exact absurd hcf (by simp)
        · exact h
    · rw [List.mem_cons, ih]
      constructor
      · rintro (hc | h)
        · exact Or.inl ⟨h1, by simp [Bool.not_eq_true] at h2 ⊢; exact h2, h3.1, h3.2,
            Or.inl ⟨h4.1, h4.2, hc⟩⟩
        · exact Or.inr h
      · rintro (⟨_, _, _, _, (⟨_, _, hc⟩ | ⟨hfalse, _⟩)⟩ | h)
        · exact Or.inl hc
        · rw [h4.1] at hfalse
          exact absurd hfalse (by simp)
        · exact Or.inr h
    · rw [List.mem_cons, ih]
      have hroomf : strTruthy room = false := by
        revert h5
        cases strTruthy room <;> simp
      constructor
      · rintro (hc | h)
        · exact Or.inl ⟨h1, by simp [Bool.not_eq_true] at h2 ⊢; exact h2, h3.1, h3.2,
            Or.inr ⟨hroomf, hc⟩⟩
        · exact Or.inr h
      · rintro (⟨_, _, _, _, (⟨htrue, _, _⟩ | ⟨_, hc⟩)⟩ | h)
        · rw [hroomf] at htrue
          exact absurd htrue (by simp)
        · exact Or.inl hc
        · exact Or.inr h
    · rw [ih]
      have hroomt : strTruthy room = true := by
        revert h5
        cases strTruthy room <;> simp
      constructor
      · intro h
        exact Or.inr h
      · rintro (⟨_, _, _, _, (⟨_, hrm, _⟩ | ⟨hfalse, _⟩)⟩ | h)
        · exact absurd ⟨hroomt, hrm⟩ h4
        · rw [hroomt] at hfalse
          exact absurd hfalse (by simp)
        · exact h
    · rw [ih]
      constructor
      · intro h
        exact Or.inr h
      · rintro (⟨_, _, ho1, ho2, _⟩ | h)
        · exact absurd ⟨ho1, ho2⟩ h3
        · exact h

theorem store_key_unique (store : EventStore) (i : Nat) (ev ev' : CalendarEvent)
    (hnd : (store.map Prod.fst).Nodup)
    (h1 : (i, ev) ∈ store) (h2 : (i, ev') ∈ store) : ev = ev' := by
  induction store with
  | nil => cases h1
  | cons hd tl ih =>
    rw [List.map_cons, List.nodup_cons] at hnd
    rcases List.mem_cons.mp h1 with he1 | ht1
    · rcases List.mem_cons.mp h2 with he2 | ht2
      · rw [← he1] at he2
        exact (Prod.mk.injEq _ _ _ _).mp he2.symm |>.2
      · exfalso
        apply hnd.1
        rw [← he1]
        simpa using List.mem_map_of_mem Prod.fst ht2
    · rcases List.mem_cons.mp h2 with he2 | ht2
      · exfalso
        apply hnd.1
        rw [← he2]
        simpa using List.mem_map_of_mem Prod.fst ht1
      · exact ih hnd.2 ht1 ht2

theorem storeGet_storeSet (store : EventStore) (eid : Nat) (ev x : CalendarEvent)
    (h : storeGet store eid = some ev) :
    storeGet (storeSet store eid x) eid = some x := by
  induction store with
  | nil => simp [storeGet] at h
  | cons hd tl ih =>
    obtain ⟨j, e⟩ := hd
    by_cases hj : j = eid
    · subst hj
      simp [storeGet, storeSet, List.find?]
    · simp only [storeGet, storeSet, List.map_cons, List.find?] at h ⊢
      rw [if_neg hj]
      have hbeq : (j == eid) = false := by
        simp [hj]
      simp only [hbeq] at h ⊢
      exact ih h

theorem storeSet_idem (store : EventStore) (eid : Nat) (x : CalendarEvent) :
    storeSet (storeSet store eid x) eid x = storeSet store eid x := by
  unfold storeSet
  rw [List.map_map]
  apply List.map_congr_left
  intro p _
  by_cases hp : p.1 = eid
  · simp [hp]
  · simp [hp]

theorem mapList_consList (F : List CalendarEvent → List CalendarEvent)
    (hF : ∀ a b, F (a ++ b) = F a ++ F b) (here : List CalendarEvent) (g : GenOutcome) :
    GenOutcome.mapList F (GenOutcome.consList here g)
      = GenOutcome.consList (F here) (GenOutcome.mapList F g) := by
  cases g <;> simp [GenOutcome.mapList, GenOutcome.consList, hF]

/-- If `f` commutes with instance construction and preserves the
cancellation-date list, generating from `f ev` is generating from `ev`
with `f` mapped over every produced instance (the loop reads nothing else
of the template). -/
theorem genLoop_hom (ev : CalendarEvent) (f : CalendarEvent → CalendarEvent)
    (r : String) (dur : Int) (recEnd : DateTime)
    (h1 : ∀ cur, f (mkInstance ev dur cur) = mkInstance (f ev) dur cur)
    (h2 : (f ev).cancellation_dates = ev.cancellation_dates) :
    ∀ fuel current,
      genLoop (f ev) r dur recEnd fuel current
        = (genLoop ev r dur recEnd fuel current).map (GenOutcome.mapList (List.map f)) := by
  have key : ∀ (x : Option GenOutcome) (hl : List CalendarEvent),
      (x.map (GenOutcome.mapList (List.map f))).map (GenOutcome.consList (hl.map f))
        = (x.map (GenOutcome.consList hl)).map (GenOutcome.mapList (List.map f)) := by
    intro x hl
    cases x with
    | none => rfl
    | some g => cases g <;> simp [GenOutcome.consList, GenOutcome.mapList]
  intro fuel
  induction fuel with
  | zero =>
    intro current
    simp only [genLoop]
    split
    · rfl
    · rfl
  | succ n ih =>
    intro current
    simp only [genLoop]
    by_cases hg : DateTime.le current recEnd
    · rw [if_pos hg, if_pos hg]
      have hhere :
          (if current.date ∈ (f ev).cancellation_dates then ([] : List CalendarEvent)
             else [mkInstance (f ev) dur current])
            = (if current.date ∈ ev.cancellation_dates then ([] : List CalendarEvent)
               else [mkInstance ev dur current]).map f := by
        rw [h2]
        by_cases hm : current.date ∈ ev.cancellation_dates
        · rw [if_pos hm, if_pos hm]
          rfl
        · rw [if_neg hm, if_neg hm]
          simp [h1]
      rw [hhere]
      by_cases hd : r = "daily"
      · rw [if_pos hd, if_pos hd, ih, key]
      · rw [if_neg hd, if_neg hd]
        by_cases hw : r = "weekly"
        · rw [if_pos hw, if_pos hw, ih, key]
        · rw [if_neg hw, if_neg hw]
          by_cases hmo : r = "monthly"
          · rw [if_pos hmo, if_pos hmo]
            cases hsm : current.stepMonth with
            | none => rfl
            | some nxt =>
              dsimp only
              rw [ih, key]
          · rw [if_neg hmo, if_neg hmo]
            simp [GenOutcome.mapList]
    · rw [if_neg hg, if_neg hg]
      rfl

/-- Template-to-instance field map lifted through the whole expansion,
for maps that leave every field the expansion reads unchanged. -/
theorem generate_hom (ev : CalendarEvent) (f : CalendarEvent → CalendarEvent)
    (h1 : ∀ dur cur, f (mkInstance ev dur cur) = mkInstance (f ev) dur cur)
    (h2 : (f ev).cancellation_dates = ev.cancellation_dates)
    (h3 : (f ev).recurrence = ev.recurrence)
    (h4 : (f ev).recurrence_end = ev.recurrence_end)
    (h5 : (f ev).start = ev.start) (h6 : (f ev).«end» = ev.«end») :
    generate_recurring_events (f ev)
      = (generate_recurring_events ev).map (GenOutcome.mapList (List.map f)) := by
  unfold generate_recurring_events
  rw [h3]
  cases hr : ev.recurrence with
  | none =>
    simp [GenOutcome.mapList]
  | some r =>
    by_cases hre : r = ""
    · subst hre
      simp [GenOutcome.mapList]
    · dsimp only
      rw [if_neg hre, if_neg hre]
      have hdur : DateTime.sub (f ev).«end» (f ev).start = DateTime.sub ev.«end» ev.start := by
        rw [h5, h6]
      have heff : effectiveRecEnd (f ev) = effectiveRecEnd ev := by
        unfold effectiveRecEnd
        rw [h4, h5]
      rw [hdur, heff, h5]
      exact genLoop_hom ev f r _ _ (fun cur => h1 _ cur) h2 _ _

theorem generate_flag (ev : CalendarEvent) (b : Bool) :
    generate_recurring_events (setIsCancelled b ev)
      = (generate_recurring_events ev).map (GenOutcome.mapList (List.map (setIsCancelled b))) :=
  generate_hom ev (setIsCancelled b) (fun _ _ => rfl) rfl rfl rfl rfl rfl

theorem option_append_cong (x y : Option (List CalendarEvent)) (a c : List CalendarEvent)
    (hxy : x.map (List.map forgetFlag) = y.map (List.map forgetFlag))
    (hac : a.map forgetFlag = c.map forgetFlag) :
    (x.map (fun t => a ++ t)).map (List.map forgetFlag)
      = (y.map (fun t => c ++ t)).map (List.map forgetFlag) := by
  cases x with
  | none =>
    cases y with
    | none => rfl
    | some t => simp at hxy
  | some t =>
    cases y with
    | none => simp at hxy
    | some u =>
      simp only [Option.map_some'] at hxy ⊢
      rw [List.map_append, List.map_append, hac]
      rw [Option.some.injEq] at hxy
      rw [hxy]

theorem expandAll_setFlag (store : EventStore) (i : Nat) (b : Bool) :
    (expandAll (storeSetFlag store i b)).map (List.map forgetFlag)
      = (expandAll store).map (List.map forgetFlag) := by
  induction store with
  | nil => rfl
  | cons hd tl ih =>
    obtain ⟨j, e⟩ := hd
    simp only [storeSetFlag, List.map_cons] at ih ⊢
    by_cases hj : j = i
    · rw [if_pos hj]
      simp only [expandAll]
      rw [generate_flag]
      cases hge : generate_recurring_events e with
      | none => rfl
      | some g =>
        cases g with
        | err => rfl
        | ok l =>
          simp only [Option.map_some', GenOutcome.mapList]
          exact option_append_cong _ _ _ _ ih
            (by simp [List.map_map, Function.comp, forgetFlag, setIsCancelled])
    · rw [if_neg hj]
      simp only [expandAll]
      cases hge : generate_recurring_events e with
      | none => rfl
      | some g =>
        cases g with
        | err => rfl
        | ok l =>
          exact option_append_cong _ _ _ _ ih rfl

theorem filter_forget_cong (p : CalendarEvent → Bool)
    (hp : ∀ o, p (forgetFlag o) = p o)
    (l1 l2 : List CalendarEvent)
    (h : l1.map forgetFlag = l2.map forgetFlag) :
    (l1.filter p).map forgetFlag = (l2.filter p).map forgetFlag := by
  have e1 : ∀ l : List CalendarEvent,
      (l.filter p).map forgetFlag = (l.map forgetFlag).filter p := by
    intro l
    rw [List.filter_map]
    congr 1
    apply List.filter_congr
    intro a _
    exact (hp a).symm
  rw [e1, e1, h]

theorem get_events_setFlag (store : EventStore) (i : Nat) (b : Bool) (roster : Roster)
    (startF endF : Option DateTime) (activityF emailF : Option String) :
    (get_events (storeSetFlag store i b) roster startF endF activityF emailF).map
        (List.map forgetFlag)
      = (get_events store roster startF endF activityF emailF).map (List.map forgetFlag) := by
  unfold get_events
  have hex := expandAll_setFlag store i b
  cases h1 : expandAll (storeSetFlag store i b) with
  | none =>
    rw [h1] at hex
    cases h2 : expandAll store with
    | none => rfl
    | some t =>
      rw [h2] at hex
      simp at hex
  | some t1 =>
    rw [h1] at hex
    cases h2 : expandAll store with
    | none =>
      rw [h2] at hex
      simp at hex
    | some t2 =>
      rw [h2] at hex
      simp only [Option.map_some', Option.some.injEq] at hex
      dsimp only
      have s1 : (match startF with
            | some sd => t1.filter (fun (ev : CalendarEvent) => decide (DateTime.le sd ev.«end»))
            | none => t1).map forgetFlag
          = (match startF with
            | some sd => t2.filter (fun (ev : CalendarEvent) => decide (DateTime.le sd ev.«end»))
            | none => t2).map forgetFlag := by
        cases startF with
        | none => exact hex
        | some sd =>
          exact filter_forget_cong
            (fun (ev : CalendarEvent) => decide (DateTime.le sd ev.«end»))
            (fun o => rfl) _ _ hex
      generalize hg1 : (match startF with
            | some sd => t1.filter (fun (ev : CalendarEvent) => decide (DateTime.le sd ev.«end»))
            | none => t1) = u1 at s1 ⊢
      generalize hg2 : (match startF with
            | some sd => t2.filter (fun (ev : CalendarEvent) => decide (DateTime.le sd ev.«end»))
            | none => t2) = u2 at s1 ⊢
      have s2 : (match endF with
            | some ed => u1.filter (fun (ev : CalendarEvent) => decide (DateTime.le ev.start ed))
            | none => u1).map forgetFlag
          = (match endF with
            | some ed => u2.filter (fun (ev : CalendarEvent) => decide (DateTime.le ev.start ed))
            | none => u2).map forgetFlag := by
        cases endF with
        | none => exact s1
        | some ed =>
          exact filter_forget_cong
            (fun (ev : CalendarEvent) => decide (DateTime.le ev.start ed))
            (fun o => rfl) _ _ s1
      generalize hg3 : (match endF with
            | some ed => u1.filter (fun (ev : CalendarEvent) => decide (DateTime.le ev.start ed))
            | none => u1) = v1 at s2 ⊢
      generalize hg4 : (match endF with
            | some ed => u2.filter (fun (ev : CalendarEvent) => decide (DateTime.le ev.start ed))
            | none => u2) = v2 at s2 ⊢
      have s3 : (if strTruthy activityF = true then
              v1.filter (fun (ev : CalendarEvent) => ev.activity_name == activityF.getD "")
            else v1).map forgetFlag
          = (if strTruthy activityF = true then
              v2.filter (fun (ev : CalendarEvent) => ev.activity_name == activityF.getD "")
            else v2).map forgetFlag := by
        by_cases ha : strTruthy activityF = true
        · rw [if_pos ha, if_pos ha]
          exact filter_forget_cong
            (fun (ev : CalendarEvent) => ev.activity_name == activityF.getD "")
            (fun o => rfl) _ _ s2
        · rw [if_neg ha, if_neg ha]
          exact s2
      generalize hg5 : (if strTruthy activityF = true then
              v1.filter (fun (ev : CalendarEvent) => ev.activity_name == activityF.getD "")
            else v1) = w1 at s3 ⊢
      generalize hg6 : (if strTruthy activityF = true then
              v2.filter (fun (ev : CalendarEvent) => ev.activity_name == activityF.getD "")
            else v2) = w2 at s3 ⊢
      simp only [Option.map_some', Option.some.injEq]
      by_cases hm : strTruthy emailF = true
      · rw [if_pos hm, if_pos hm]
        refine filter_forget_cong _ (fun o => ?_) _ _ s3
        rfl
      · rw [if_neg hm, if_neg hm]
        exact s3

theorem export_selected_setFlag (store : EventStore) (i : Nat) (b : Bool) (roster : Roster)
    (activityF emailF : Option String) :
    (export_selected (storeSetFlag store i b) roster activityF emailF).map
        (List.map forgetFlag)
      = (export_selected store roster activityF emailF).map (List.map forgetFlag) := by
  unfold export_selected
  have hex := expandAll_setFlag store i b
  cases h1 : expandAll (storeSetFlag store i b) with
  | none =>
    rw [h1] at hex
    cases h2 : expandAll store with
    | none => rfl
    | some t =>
      rw [h2] at hex
      simp at hex
  | some t1 =>
    rw [h1] at hex
    cases h2 : expandAll store with
    | none =>
      rw [h2] at hex
      simp at hex
    | some t2 =>
      rw [h2] at hex
      simp only [Option.map_some', Option.some.injEq] at hex
      dsimp only
      have s3 : (if strTruthy activityF = true then
              t1.filter (fun (ev : CalendarEvent) => ev.activity_name == activityF.getD "")
            else t1).map forgetFlag
          = (if strTruthy activityF = true then
              t2.filter (fun (ev : CalendarEvent) => ev.activity_name == activityF.getD "")
            else t2).map forgetFlag := by
        by_cases ha : strTruthy activityF = true
        · rw [if_pos ha, if_pos ha]
          exact filter_forget_cong
            (fun (ev : CalendarEvent) => ev.activity_name == activityF.getD "")
            (fun o => rfl) _ _ hex
        · rw [if_neg ha, if_neg ha]
          exact hex
      generalize hg5 : (if strTruthy activityF = true then
              t1.filter (fun (ev : CalendarEvent) => ev.activity_name == activityF.getD "")
            else t1) = w1 at s3 ⊢
      generalize hg6 : (if strTruthy activityF = true then
              t2.filter (fun (ev : CalendarEvent) => ev.activity_name == activityF.getD "")
            else t2) = w2 at s3 ⊢
      simp only [Option.map_some', Option.some.injEq]
      by_cases hm : strTruthy emailF = true
      · rw [if_pos hm, if_pos hm]
        refine filter_forget_cong _ (fun o => ?_) _ _ s3
        rfl
      · rw [if_neg hm, if_neg hm]
        exact s3

theorem check_filter_cancelled (store : EventStore) (cstart cend : DateTime)
    (room : Option String) (excl : Option Nat) :
    check_event_conflicts store cstart cend room excl
      = check_event_conflicts (store.filter (fun p => !(p.2.is_cancelled)))
          cstart cend room excl := by
  induction store with
  | nil => rfl
  | cons hd tl ih =>
    obtain ⟨eid, ev⟩ := hd
    rw [List.filter_cons]
    by_cases hc : ev.is_cancelled
    · rw [if_neg (by simp [hc])]
      simp only [check_event_conflicts]
      rw [if_pos hc]
      split_ifs with h1
      · exact ih
      · exact ih
    · rw [if_pos (by simp [hc])]
      simp only [check_event_conflicts]
      rw [ih]

@[simp] theorem mkInstance_start (ev : CalendarEvent) (dur : Int) (cur : DateTime) :
    (mkInstance ev dur cur).start = cur := rfl

@[simp] theorem mkInstance_end (ev : CalendarEvent) (dur : Int) (cur : DateTime) :
    (mkInstance ev dur cur).«end» = cur.addMinutes dur := rfl

theorem isSome_map_opt (x : Option GenOutcome) (f : GenOutcome → GenOutcome) :
    ((x.map f).isSome) = x.isSome := by
  cases x <;> rfl

/-- The fuel bound makes the loop guard fail before the fuel runs out:
every recurrence step advances the current datetime by at least one day. -/
theorem genLoop_isSome (ev : CalendarEvent) (r : String) (dur : Int) (recEnd : DateTime) :
    ∀ fuel current, current.date.Valid →
      recEnd.toMin + 1 ≤ current.toMin + 1440 * fuel →
      (genLoop ev r dur recEnd fuel current).isSome = true := by
  intro fuel
  induction fuel with
  | zero =>
    intro current hv hb
    simp only [genLoop]
    rw [if_neg ?hng]
    · rfl
    · intro hle
      have hgm : current.toMin ≤ recEnd.toMin := hle
      omega
  | succ n ih =>
    intro current hv hb
    simp only [genLoop]
    by_cases hg : DateTime.le current recEnd
    · rw [if_pos hg]
      by_cases hd : r = "daily"
      · rw [if_pos hd, isSome_map_opt]
        apply ih _ (DateTime.addDays_date_valid current 1 hv)
        have := DateTime.toMin_addDays current 1 hv
        omega
      · rw [if_neg hd]
        by_cases hw : r = "weekly"
        · rw [if_pos hw, isSome_map_opt]
          apply ih _ (DateTime.addDays_date_valid current 7 hv)
          have := DateTime.toMin_addDays current 7 hv
          omega
        · rw [if_neg hw]
          by_cases hmo : r = "monthly"
          · rw [if_pos hmo]
            cases hsm : current.stepMonth with
            | none => rfl
            | some nxt =>
              dsimp only
              rw [isSome_map_opt]
              obtain ⟨hv', _, _, hstep⟩ := DateTime.stepMonth_spec current nxt hv hsm
              apply ih _ hv'
              omega
          · rw [if_neg hmo]
            rfl
    · rw [if_neg hg]
      rfl

/-- With a start day of month at most 28, the monthly step never hits an
invalid date, so the loop completes normally. -/
theorem genLoop_monthly_ok (ev : CalendarEvent) (dur : Int) (recEnd : DateTime) :
    ∀ fuel current, current.date.Valid → current.date.day ≤ 28 →
      recEnd.toMin + 1 ≤ current.toMin + 1440 * fuel →
      ∃ l, genLoop ev "monthly" dur recEnd fuel current = some (.ok l) := by
  intro fuel
  induction fuel with
  | zero =>
    intro current hv hday hb
    simp only [genLoop]
    rw [if_neg ?hng2]
    · exact ⟨[], rfl⟩
    · intro hle
      have hgm : current.toMin ≤ recEnd.toMin := hle
      omega
  | succ n ih =>
    intro current hv hday hb
    simp only [genLoop]
    by_cases hg : DateTime.le current recEnd
    · rw [if_pos hg]
      rw [if_neg (by decide), if_neg (by decide)]
      rw [if_pos (by trivial)]
      have hsome := DateTime.stepMonth_isSome current hday
      cases hsm : current.stepMonth with
      | none =>
        rw [hsm] at hsome
        cases hsome
      | some nxt =>
        obtain ⟨hv', hd', _, hstep⟩ := DateTime.stepMonth_spec current nxt hv hsm
        obtain ⟨l', hl'⟩ := ih nxt hv' (by rw [hd']; exact hday) (by omega)
        refine ⟨(if current.date ∈ ev.cancellation_dates then []
                  else [mkInstance ev dur current]) ++ l', ?_⟩
        dsimp only
        rw [hl']
        rfl
    · rw [if_neg hg]
      exact ⟨[], rfl⟩

theorem map_consList_ok (x : Option GenOutcome) (here l : List CalendarEvent) :
    x.map (GenOutcome.consList here) = some (.ok l) ↔
      ∃ l', x = some (.ok l') ∧ l = here ++ l' := by
  cases x with
  | none => simp
  | some g =>
    cases g with
    | ok l' =>
      simp only [Option.map_some', GenOutcome.consList, Option.some.injEq]
      constructor
      · intro h
        exact ⟨l', rfl, (GenOutcome.ok.injEq _ _).mp h |>.symm⟩
      · rintro ⟨l'', h1, h2⟩
        have h3 : l' = l'' := (GenOutcome.ok.injEq _ _).mp h1
        rw [h3, h2]
    | err =>
      simp [GenOutcome.consList]

theorem stepIter_succ (r : String) (k : Nat) (t : DateTime) :
    stepIter r (k + 1) t = (stepIter r k t).bind (stepRec r) := rfl

/-- Every instance the loop produces sits at an iterated recurrence step
from the template start, does not exceed the recurrence end, and carries
the duration `dur` from its own start. -/
theorem genLoop_mem (ev : CalendarEvent) (r : String) (dur : Int) (recEnd : DateTime)
    (hdd : 0 ≤ (ev.start.toMin : Int) + dur) :
    ∀ fuel current k0 l,
      current.date.Valid → ev.start.toMin ≤ current.toMin →
      stepIter r k0 ev.start = some current →
      genLoop ev r dur recEnd fuel current = some (.ok l) →
      ∀ occ ∈ l, ∃ k, stepIter r k ev.start = some occ.start ∧
        DateTime.le occ.start recEnd ∧
        ((occ.«end».toMin : Int) - (occ.start.toMin : Int) = dur) := by
  intro fuel
  induction fuel with
  | zero =>
    intro current k0 l hv hmono hiter hgen
    simp only [genLoop] at hgen
    split at hgen
    · cases hgen
    · rw [Option.some.injEq] at hgen
      rw [← (GenOutcome.ok.injEq _ _).mp hgen]
      intro occ hocc
      cases hocc
  | succ n ih =>
    intro current k0 l hv hmono hiter hgen
    simp only [genLoop] at hgen
    split at hgen
    case isTrue hg =>
      have hhere : ∀ occ ∈ (if current.date ∈ ev.cancellation_dates then ([] : List CalendarEvent)
            else [mkInstance ev dur current]),
          ∃ k, stepIter r k ev.start = some occ.start ∧
            DateTime.le occ.start recEnd ∧
            ((occ.«end».toMin : Int) - (occ.start.toMin : Int) = dur) := by
        intro occ hocc
        have hocc' : occ = mkInstance ev dur current := by
          by_cases hm : current.date ∈ ev.cancellation_dates
          · rw [if_pos hm] at hocc
            cases hocc
          · rw [if_neg hm] at hocc
            exact List.mem_singleton.mp hocc
        subst hocc'
        refine ⟨k0, by rw [mkInstance_start]; exact hiter,
          by rw [mkInstance_start]; exact hg, ?_⟩
        rw [mkInstance_start, mkInstance_end]
        have := DateTime.toMin_addMinutes current dur hv (by omega)
        omega
      by_cases hd : r = "daily"
      · rw [if_pos hd, map_consList_ok] at hgen
        obtain ⟨l', hx, hl⟩ := hgen
        subst hl
        intro occ hocc
        rcases List.mem_append.mp hocc with hin | hin
        · exact hhere occ hin
        · have hvd := DateTime.addDays_date_valid current 1 hv
          have htm := DateTime.toMin_addDays current 1 hv
          refine ih (current.addDays 1) (k0 + 1) l' hvd (by omega) ?_ hx occ hin
          rw [stepIter_succ, hiter]
          simp [stepRec, hd]
      · rw [if_neg hd] at hgen
        by_cases hw : r = "weekly"
        · rw [if_pos hw, map_consList_ok] at hgen
          obtain ⟨l', hx, hl⟩ := hgen
          subst hl
          intro occ hocc
          rcases List.mem_append.mp hocc with hin | hin
          · exact hhere occ hin
          · have hvd := DateTime.addDays_date_valid current 7 hv
            have htm := DateTime.toMin_addDays current 7 hv
            refine ih (current.addDays 7) (k0 + 1) l' hvd (by omega) ?_ hx occ hin
            rw [stepIter_succ, hiter]
            simp [stepRec, hd, hw]
        · rw [if_neg hw] at hgen
          by_cases hmo : r = "monthly"
          · rw [if_pos hmo] at hgen
            cases hsm : current.stepMonth with
            | none =>
              rw [hsm] at hgen
              cases hgen
            | some nxt =>
              rw [hsm] at hgen
              dsimp only at hgen
              rw [map_consList_ok] at hgen
              obtain ⟨l', hx, hl⟩ := hgen
              subst hl
              intro occ hocc
              rcases List.mem_append.mp hocc with hin | hin
              · exact hhere occ hin
              · obtain ⟨hv', _, _, hstep⟩ := DateTime.stepMonth_spec current nxt hv hsm
                refine ih nxt (k0 + 1) l' hv' (by omega) ?_ hx occ hin
                rw [stepIter_succ, hiter]
                simp [stepRec, hd, hw, hmo, hsm]
          · rw [if_neg hmo, Option.some.injEq] at hgen
            rw [← (GenOutcome.ok.injEq _ _).mp hgen]
            intro occ hocc
            exact hhere occ hocc
    case isFalse hg =>
      rw [Option.some.injEq] at hgen
      rw [← (GenOutcome.ok.injEq _ _).mp hgen]
      intro occ hocc
      cases hocc

/-- No produced instance falls on a cancelled date. -/
theorem genLoop_not_cancelled (ev : CalendarEvent) (r : String) (dur : Int)
    (recEnd : DateTime) :
    ∀ fuel current l,
      genLoop ev r dur recEnd fuel current = some (.ok l) →
      ∀ occ ∈ l, occ.start.date ∉ ev.cancellation_dates := by
  intro fuel
  induction fuel with
  | zero =>
    intro current l hgen
    simp only [genLoop] at hgen
    split at hgen
    · cases hgen
    · rw [Option.some.injEq] at hgen
      rw [← (GenOutcome.ok.injEq _ _).mp hgen]
      intro occ hocc
      cases hocc
  | succ n ih =>
    intro current l hgen
    simp only [genLoop] at hgen
    split at hgen
    case isTrue hg =>
      have hhere : ∀ occ ∈ (if current.date ∈ ev.cancellation_dates then ([] : List CalendarEvent)
            else [mkInstance ev dur current]), occ.start.date ∉ ev.cancellation_dates := by
        intro occ hocc
        by_cases hm : current.date ∈ ev.cancellation_dates
        · rw [if_pos hm] at hocc
          cases hocc
        · rw [if_neg hm] at hocc
          rw [List.mem_singleton.mp hocc, mkInstance_start]
          exact hm
      by_cases hd : r = "daily"
      · rw [if_pos hd, map_consList_ok] at hgen
        obtain ⟨l', hx, hl⟩ := hgen
        subst hl
        intro occ hocc
        rcases List.mem_append.mp hocc with hin | hin
        · exact hhere occ hin
        · exact ih _ l' hx occ hin
      · rw [if_neg hd] at hgen
        by_cases hw : r = "weekly"
        · rw [if_pos hw, map_consList_ok] at hgen
          obtain ⟨l', hx, hl⟩ := hgen
          subst hl
          intro occ hocc
          rcases List.mem_append.mp hocc with hin | hin
          · exact hhere occ hin
          · exact ih _ l' hx occ hin
        · rw [if_neg hw] at hgen
          by_cases hmo : r = "monthly"
          · rw [if_pos hmo] at hgen
            cases hsm : current.stepMonth with
            | none =>
              rw [hsm] at hgen
              cases hgen
            | some nxt =>
              rw [hsm] at hgen
              dsimp only at hgen
              rw [map_consList_ok] at hgen
              obtain ⟨l', hx, hl⟩ := hgen
              subst hl
              intro occ hocc
              rcases List.mem_append.mp hocc with hin | hin
              · exact hhere occ hin
              · exact ih _ l' hx occ hin
          · rw [if_neg hmo, Option.some.injEq] at hgen
            rw [← (GenOutcome.ok.injEq _ _).mp hgen]
            exact hhere
    case isFalse hg =>
      rw [Option.some.injEq] at hgen
      rw [← (GenOutcome.ok.injEq _ _).mp hgen]
      intro occ hocc
      cases hocc

theorem cancelMap_append (cds : List Date) (d : Date) (a c : List CalendarEvent) :
    cancelMap cds d (a ++ c) = cancelMap cds d a ++ cancelMap cds d c := by
  unfold cancelMap
  rw [List.filter_append, List.map_append]

theorem genLoop_cancel (ev : CalendarEvent) (d : Date) (r : String) (dur : Int)
    (recEnd : DateTime) :
    ∀ fuel current,
      genLoop { ev with cancellation_dates := ev.cancellation_dates ++ [d] }
          r dur recEnd fuel current
        = (genLoop ev r dur recEnd fuel current).map
            (GenOutcome.mapList (cancelMap ev.cancellation_dates d)) := by
  have key : ∀ (x : Option GenOutcome) (hl : List CalendarEvent),
      (x.map (GenOutcome.mapList (cancelMap ev.cancellation_dates d))).map
          (GenOutcome.consList (cancelMap ev.cancellation_dates d hl))
        = (x.map (GenOutcome.consList hl)).map
            (GenOutcome.mapList (cancelMap ev.cancellation_dates d)) := by
    intro x hl
    cases x with
    | none => rfl
    | some g =>
      cases g with
      | ok l =>
        simp only [Option.map_some', GenOutcome.consList, GenOutcome.mapList]
        rw [cancelMap_append]
      | err => rfl
  intro fuel
  induction fuel with
  | zero =>
    intro current
    simp only [genLoop]
    split
    · rfl
    · rfl
  | succ n ih =>
    intro current
    simp only [genLoop]
    by_cases hg : DateTime.le current recEnd
    · rw [if_pos hg, if_pos hg]
      have hhere :
          (if current.date ∈
              ({ ev with cancellation_dates := ev.cancellation_dates ++ [d] } :
                CalendarEvent).cancellation_dates
            then ([] : List CalendarEvent)
            else [mkInstance { ev with cancellation_dates := ev.cancellation_dates ++ [d] }
                    dur current])
            = cancelMap ev.cancellation_dates d
                (if current.date ∈ ev.cancellation_dates then ([] : List CalendarEvent)
                 else [mkInstance ev dur current]) := by
        by_cases h1 : current.date ∈ ev.cancellation_dates
        · rw [if_pos h1, if_pos (by simp [h1])]
          rfl
        · rw [if_neg h1]
          by_cases h2 : current.date = d
          · rw [if_pos (by simp [h2])]
            unfold cancelMap
            simp [h2]
          · rw [if_neg (by simp [h1, h2])]
            unfold cancelMap
            simp only [List.filter, mkInstance_start]
            have hb : (!(current.date == d)) = true := by
              simp [h2]
            simp [hb, mkInstance]
      rw [hhere]
      by_cases hd : r = "daily"
      · rw [if_pos hd, if_pos hd, ih, key]
      · rw [if_neg hd, if_neg hd]
        by_cases hw : r = "weekly"
        · rw [if_pos hw, if_pos hw, ih, key]
        · rw [if_neg hw, if_neg hw]
          by_cases hmo : r = "monthly"
          · rw [if_pos hmo, if_pos hmo]
            cases hsm : current.stepMonth with
            | none => rfl
            | some nxt =>
              dsimp only
              rw [ih, key]
          · rw [if_neg hmo, if_neg hmo]
            simp [GenOutcome.mapList]
    · rw [if_neg hg, if_neg hg]
      rfl

theorem generate_cancel (ev : CalendarEvent) (d : Date)
    (hrec : strTruthy ev.recurrence = true) :
    generate_recurring_events { ev with cancellation_dates := ev.cancellation_dates ++ [d] }
      = (generate_recurring_events ev).map
          (GenOutcome.mapList (cancelMap ev.cancellation_dates d)) := by
  obtain ⟨i, ti, an, de, st, en, rec, ren, ro, co, ic, cd⟩ := ev
  cases rec with
  | none => simp [strTruthy] at hrec
  | some r =>
    have hre : ¬ r = "" := by
      simp [strTruthy] at hrec
      exact hrec
    unfold generate_recurring_events
    dsimp only
    rw [if_neg hre, if_neg hre]
    exact genLoop_cancel ⟨i, ti, an, de, st, en, some r, ren, ro, co, ic, cd⟩ d r _ _ _ _

/-- Occurrences of a recurring template never land on its cancelled dates. -/
theorem generate_not_cancelled (ev : CalendarEvent) (l : List CalendarEvent)
    (hrec : strTruthy ev.recurrence = true)
    (hgen : generate_recurring_events ev = some (.ok l)) :
    ∀ occ ∈ l, occ.start.date ∉ ev.cancellation_dates := by
  unfold generate_recurring_events at hgen
  cases hr : ev.recurrence with
  | none =>
    rw [hr] at hrec
    simp [strTruthy] at hrec
  | some r =>
    rw [hr] at hrec hgen
    have hre : ¬ r = "" := by
      simp [strTruthy] at hrec
      exact hrec
    dsimp only at hgen
    rw [if_neg hre] at hgen
    exact genLoop_not_cancelled ev r _ _ _ _ _ hgen

/-- C1 (counterexample): updating only `start` past the stored `end` fails
with `InvalidRange`, yet the stored template now carries the new start —
it is not left unchanged. -/
theorem c1_counterexample :
    (update_event c1store 1 c1upd).1 = Except.error ApiError.invalidRange ∧
    storeGet (update_event c1store 1 c1upd).2 1
      = some { c1event with start := ⟨⟨2024, 12, 6⟩, 1080⟩ } ∧
    ({ c1event with start := ⟨⟨2024, 12, 6⟩, 1080⟩ } : CalendarEvent) ≠ c1event := by
  decide

/-- C1 (amended): when a partial update supplies `start` or `end` such that
the resulting template has `end <= start`, `update_event` fails with
`InvalidRange`, but the mutation is applied before validation: the stored
template retains all supplied fields (and only those). -/
theorem c1_update_mutates_before_validation (store : EventStore) (eid : Nat)
    (u : EventUpdate) (ev : CalendarEvent)
    (hget : storeGet store eid = some ev)
    (hsup : u.start.isSome = true ∨ u.«end».isSome = true)
    (hbad : DateTime.le (applyUpdate ev u).«end» (applyUpdate ev u).start) :
    (update_event store eid u).1 = Except.error ApiError.invalidRange ∧
    (update_event store eid u).2 = storeSet store eid (applyUpdate ev u) ∧
    storeGet (update_event store eid u).2 eid = some (applyUpdate ev u) := by
  have h1 : update_event store eid u
      = (Except.error ApiError.invalidRange, storeSet store eid (applyUpdate ev u)) := by
    unfold update_event
    rw [hget]
    dsimp only
    rw [if_pos hsup, if_pos hbad]
  refine ⟨by rw [h1], by rw [h1], ?_⟩
  rw [h1]
  exact storeGet_storeSet store eid ev _ hget

theorem c1_update_mutates_before_validation_witness :
    (update_event c1store 1 c1upd).1 = Except.error ApiError.invalidRange ∧
    (update_event c1store 1 c1upd).2 = storeSet c1store 1 (applyUpdate c1event c1upd) ∧
    storeGet (update_event c1store 1 c1upd).2 1 = some (applyUpdate c1event c1upd) :=
  c1_update_mutates_before_validation c1store 1 c1upd c1event (by decide)
    (Or.inl (by decide)) (by decide)

/-- C2 (counterexample): a monthly template starting on January 31 steps to
the invalid date February 31, so the expansion fails with the uncaught
`ValueError` instead of always producing a valid date. -/
theorem c2_counterexample :
    generate_recurring_events c2event = some GenOutcome.err := by
  decide

/-- C2 (amended): for monthly recurrence the stepping rule produces the
same day-of-month in the next month, rolling the year at December; it
always yields a valid date — so expansion completes normally — when the
start's day of month is at most 28, but for days 29-31 the step can hit a
nonexistent date and expansion fails. -/
theorem c2_monthly_step_safe (ev : CalendarEvent)
    (hrec : ev.recurrence = some "monthly")
    (hv : ev.start.date.Valid) (hday : ev.start.date.day ≤ 28) :
    ∃ l, generate_recurring_events ev = some (GenOutcome.ok l) := by
  unfold generate_recurring_events
  rw [hrec]
  dsimp only
  rw [if_neg (by decide)]
  apply genLoop_monthly_ok ev _ _ _ ev.start hv hday
  unfold genFuel
  omega

theorem c2_monthly_step_safe_witness :
    ∃ l, generate_recurring_events c2okEvent = some (GenOutcome.ok l) :=
  c2_monthly_step_safe c2okEvent rfl (by decide) (by decide)

/-- C4: a template without recurrence expands to exactly one occurrence
equal to the template itself (same start and end), whatever its
`cancellation_dates` hold. -/
theorem c4_non_recurring_expand (ev : CalendarEvent) (h : ev.recurrence = none) :
    generate_recurring_events ev = some (GenOutcome.ok [ev]) := by
  unfold generate_recurring_events
  rw [h]

theorem c4_non_recurring_expand_witness :
    generate_recurring_events c4event = some (GenOutcome.ok [c4event]) :=
  c4_non_recurring_expand c4event rfl

/-- C9: expansion terminates for every template: with no explicit
recurrence end the 365-day default bound is applied before stepping, and
the fuel `genFuel` is proved sufficient for the loop guard to fail, so the
result is always produced (never the fuel-exhaustion marker). -/
theorem c9_expand_terminates (ev : CalendarEvent) (hv : ev.start.date.Valid) :
    (generate_recurring_events ev).isSome = true := by
  unfold generate_recurring_events
  cases hr : ev.recurrence with
  | none => rfl
  | some r =>
    by_cases hre : r = ""
    · subst hre
      dsimp only
      rw [if_pos rfl]
      rfl
    · dsimp only
      rw [if_neg hre]
      apply genLoop_isSome ev r _ _ _ ev.start hv
      unfold genFuel
      omega

theorem c9_expand_terminates_witness :
    (generate_recurring_events c9event).isSome = true :=
  c9_expand_terminates c9event (by decide)

/-- C3: every occurrence of a recurring template starts at a `k`-fold
recurrence step from the template's start, does not pass the recurrence
bound (the explicit one, or start plus 365 days when absent), and keeps
the template's original duration. -/
theorem c3_occurrence_shape (ev : CalendarEvent) (r : String) (l : List CalendarEvent)
    (hrec : ev.recurrence = some r) (hre : r ≠ "")
    (hv : ev.start.date.Valid)
    (hgen : generate_recurring_events ev = some (GenOutcome.ok l)) :
    ∀ occ ∈ l, ∃ k, stepIter r k ev.start = some occ.start ∧
      DateTime.le occ.start (effectiveRecEnd ev) ∧
      DateTime.sub occ.«end» occ.start = DateTime.sub ev.«end» ev.start := by
  unfold generate_recurring_events at hgen
  rw [hrec] at hgen
  dsimp only at hgen
  rw [if_neg hre] at hgen
  have hdd : 0 ≤ (ev.start.toMin : Int) + DateTime.sub ev.«end» ev.start := by
    unfold DateTime.sub
    omega
  intro occ hocc
  obtain ⟨k, h1, h2, h3⟩ :=
    genLoop_mem ev r (DateTime.sub ev.«end» ev.start) (effectiveRecEnd ev) hdd
      (genFuel (effectiveRecEnd ev)) ev.start 0 l hv (le_refl _) rfl hgen occ hocc
  refine ⟨k, h1, h2, ?_⟩
  unfold DateTime.sub at h3 ⊢
  omega

theorem c3_occurrence_shape_witness :
    ∃ k, stepIter "weekly" k c3event.start = some c3occ.start ∧
      DateTime.le c3occ.start (effectiveRecEnd c3event) ∧
      DateTime.sub c3occ.«end» c3occ.start = DateTime.sub c3event.«end» c3event.start :=
  c3_occurrence_shape c3event "weekly" c3list rfl (by decide) (by decide) (by decide)
    c3occ (by decide)

/-- C5: for the weekly template starting 2024-12-03 (daytime) with
recurrence end 2024-12-31, after cancelling 2024-12-10, listing events
between 2024-12-01 and 2024-12-31 yields exactly three occurrences, at
2024-12-03, 2024-12-17 and 2024-12-24 (the 12-31 step falls past the
midnight recurrence-end bound, and 12-10 is cancelled). -/
theorem c5_weekly_cancel_scenario :
    (cancel_event_date c5store 1 ⟨2024, 12, 10⟩).1
      = Except.ok { c5event with cancellation_dates := [⟨2024, 12, 10⟩] } ∧
    c5result.map (List.map (fun (e : CalendarEvent) => e.start))
      = some [⟨⟨2024, 12, 3⟩, 930⟩, ⟨⟨2024, 12, 17⟩, 930⟩, ⟨⟨2024, 12, 24⟩, 930⟩] ∧
    c5result.map List.length = some 3 := by
  decide

/-- C6: an event ending exactly at the candidate start, or starting exactly
at the candidate end, is never reported (touching intervals); in general a
same-room stored event is reported exactly when `candidateStart < otherEnd`
and `candidateEnd > otherStart`. -/
theorem c6_overlap_characterization (store : EventStore)
    (cstart cend : DateTime) (r : String) (excl : Option Nat)
    (i : Nat) (ev : CalendarEvent)
    (hnd : (store.map Prod.fst).Nodup) (hmem : (i, ev) ∈ store) :
    ((ev.«end» = cstart ∨ ev.start = cend) →
        ∀ c ∈ check_event_conflicts store cstart cend (some r) excl, c.event_id ≠ i) ∧
    (¬(natTruthy excl = true ∧ excl = some i) → ev.is_cancelled = false →
      r ≠ "" → ev.room = some r →
      ((∃ c ∈ check_event_conflicts store cstart cend (some r) excl, c.event_id = i) ↔
        (DateTime.lt cstart ev.«end» ∧ DateTime.lt ev.start cend))) := by
  constructor
  · rintro htouch c hc hci
    rw [check_event_conflicts_mem] at hc
    obtain ⟨⟨pid, pev⟩, hp, hnex, hnc, ho1, ho2, hbr⟩ := hc
    have hpid : c.event_id = pid := by
      rcases hbr with ⟨_, _, hce⟩ | ⟨_, hce⟩ <;> rw [hce] <;> rfl
    have hpb : pid = i := by rw [← hpid, hci]
    subst hpb
    have hpev : pev = ev := store_key_unique store pid pev ev hnd hp hmem
    subst hpev
    rcases htouch with hend | hstart
    · rw [hend] at ho1
      have : cstart.toMin < cstart.toMin := ho1
      omega
    · rw [hstart] at ho2
      have : cend.toMin < cend.toMin := ho2
      omega
  · rintro hnex hnc hre hroom
    constructor
    · rintro ⟨c, hc, hci⟩
      rw [check_event_conflicts_mem] at hc
      obtain ⟨⟨pid, pev⟩, hp, hnex', hnc', ho1, ho2, hbr⟩ := hc
      have hpid : c.event_id = pid := by
        rcases hbr with ⟨_, _, hce⟩ | ⟨_, hce⟩ <;> rw [hce] <;> rfl
      have hpb : pid = i := by rw [← hpid, hci]
      subst hpb
      have hpev : pev = ev := store_key_unique store pid pev ev hnd hp hmem
      subst hpev
      exact ⟨ho1, ho2⟩
    · intro hov
      refine ⟨conflictWithRoom i ev, ?_, rfl⟩
      rw [check_event_conflicts_mem]
      refine ⟨(i, ev), hmem, hnex, hnc, hov.1, hov.2, Or.inl ⟨?_, hroom, rfl⟩⟩
      simp [strTruthy, hre]

theorem c6_overlap_characterization_witness :
    ∃ c ∈ check_event_conflicts c6store ⟨⟨2024, 12, 6⟩, 960⟩ ⟨⟨2024, 12, 6⟩, 1050⟩
        (some "Room 101") none, c.event_id = 1 :=
  ((c6_overlap_characterization c6store ⟨⟨2024, 12, 6⟩, 960⟩ ⟨⟨2024, 12, 6⟩, 1050⟩
      "Room 101" none 1 c6ev (by decide) (by decide)).2
    (by decide) (by decide) (by decide) (by decide)).mpr (by decide)

/-- C7: same-room conflict reporting is symmetric: if checking A's time and
room (excluding A) reports B, then checking B's time and room (excluding B)
reports A. -/
theorem c7_conflict_symmetry (store : EventStore) (aId bId : Nat)
    (evA evB : CalendarEvent)
    (hnd : (store.map Prod.fst).Nodup)
    (hA : (aId, evA) ∈ store) (hB : (bId, evB) ∈ store)
    (hroom : evA.room = evB.room)
    (hcA : evA.is_cancelled = false) (hcB : evB.is_cancelled = false)
    (hne : aId ≠ bId) (hbz : bId ≠ 0)
    (hrep : ∃ c ∈ check_event_conflicts store evA.start evA.«end» evA.room (some aId),
        c.event_id = bId) :
    ∃ c ∈ check_event_conflicts store evB.start evB.«end» evB.room (some bId),
        c.event_id = aId := by
  obtain ⟨c, hc, hci⟩ := hrep
  rw [check_event_conflicts_mem] at hc
  obtain ⟨⟨pid, pev⟩, hp, hnex, hnc, ho1, ho2, hbr⟩ := hc
  have hpid : c.event_id = pid := by
    rcases hbr with ⟨_, _, hce⟩ | ⟨_, hce⟩ <;> rw [hce] <;> rfl
  have hpb : pid = bId := by rw [← hpid, hci]
  rw [hpb] at hp
  have hpev : pev = evB := store_key_unique store bId pev evB hnd hp hB
  rw [hpev] at ho1 ho2
  have hnexB : ¬(natTruthy (some bId) = true ∧ some bId = some aId) := by
    rintro ⟨_, heq⟩
    exact hne ((Option.some.injEq _ _).mp heq).symm
  by_cases hrt : strTruthy evB.room = true
  · refine ⟨conflictWithRoom aId evA, ?_, rfl⟩
    rw [check_event_conflicts_mem]
    exact ⟨(aId, evA), hA, hnexB, hcA, ho2, ho1, Or.inl ⟨hrt, hroom, rfl⟩⟩
  · have hrf : strTruthy evB.room = false := by
      revert hrt
      cases strTruthy evB.room <;> simp
    refine ⟨conflictNoRoom aId evA, ?_, rfl⟩
    rw [check_event_conflicts_mem]
    exact ⟨(aId, evA), hA, hnexB, hcA, ho2, ho1, Or.inr ⟨hrf, rfl⟩⟩

theorem c7_conflict_symmetry_witness :
    ∃ c ∈ check_event_conflicts c7store c7evB.start c7evB.«end» c7evB.room (some 2),
        c.event_id = 1 :=
  c7_conflict_symmetry c7store 1 2 c7evA c7evB (by decide) (by decide) (by decide)
    rfl rfl rfl (by decide) (by decide) (by decide)

/-- C8: cancelling a date on a recurring template stores the date (once),
after which expansion produces exactly the occurrences produced before
minus those whose date equals the cancelled one (compared up to the copied
cancellation-date list), and repeating the call is a no-op returning the
same result and leaving the store unchanged. -/
theorem c8_cancel_date (store : EventStore) (eid : Nat) (ev : CalendarEvent) (d : Date)
    (hget : storeGet store eid = some ev) (hrec : strTruthy ev.recurrence = true) :
    ∃ ev1,
      cancel_event_date store eid d = (Except.ok ev1, storeSet store eid ev1) ∧
      ((generate_recurring_events ev1).map
          (GenOutcome.mapList (List.map forgetCancelDates))
        = (generate_recurring_events ev).map
            (GenOutcome.mapList (fun l =>
              (l.filter (fun o => !(o.start.date == d))).map forgetCancelDates))) ∧
      cancel_event_date (storeSet store eid ev1) eid d
        = (Except.ok ev1, storeSet store eid ev1) := by
  have hcall : cancel_event_date store eid d
      = (Except.ok (if d ∈ ev.cancellation_dates then ev
            else { ev with cancellation_dates := ev.cancellation_dates ++ [d] }),
         storeSet store eid (if d ∈ ev.cancellation_dates then ev
            else { ev with cancellation_dates := ev.cancellation_dates ++ [d] })) := by
    unfold cancel_event_date
    rw [hget]
    dsimp only
    rw [if_pos hrec]
  refine ⟨_, hcall, ?_, ?_⟩
  · by_cases hmem : d ∈ ev.cancellation_dates
    · rw [if_pos hmem]
      cases hgen : generate_recurring_events ev with
      | none => rfl
      | some g =>
        cases g with
        | err => rfl
        | ok l =>
          simp only [Option.map_some', GenOutcome.mapList]
          have hfl : l.filter (fun o => !(o.start.date == d)) = l := by
            rw [List.filter_eq_self]
            intro a ha
            have hno := generate_not_cancelled ev l hrec hgen a ha
            have hne : a.start.date ≠ d := fun he => hno (he ▸ hmem)
            simp [hne]
          rw [hfl]
    · rw [if_neg hmem]
      rw [generate_cancel ev d hrec]
      cases hgen : generate_recurring_events ev with
      | none => rfl
      | some g =>
        cases g with
        | err => rfl
        | ok l =>
          simp only [Option.map_some', GenOutcome.mapList]
          unfold cancelMap
          rw [List.map_map]
          rfl
  · have hget2 : storeGet (storeSet store eid
        (if d ∈ ev.cancellation_dates then ev
         else { ev with cancellation_dates := ev.cancellation_dates ++ [d] })) eid
        = some (if d ∈ ev.cancellation_dates then ev
            else { ev with cancellation_dates := ev.cancellation_dates ++ [d] }) :=
      storeGet_storeSet store eid ev _ hget
    have hrec1 : strTruthy (if d ∈ ev.cancellation_dates then ev
        else { ev with cancellation_dates := ev.cancellation_dates ++ [d] } :
          CalendarEvent).recurrence = true := by
      by_cases hmem : d ∈ ev.cancellation_dates
      · rw [if_pos hmem]
        exact hrec
      · rw [if_neg hmem]
        exact hrec
    have hmem1 : d ∈ (if d ∈ ev.cancellation_dates then ev
        else { ev with cancellation_dates := ev.cancellation_dates ++ [d] } :
          CalendarEvent).cancellation_dates := by
      by_cases hmem : d ∈ ev.cancellation_dates
      · rw [if_pos hmem]
        exact hmem
      · rw [if_neg hmem]
        simp
    unfold cancel_event_date
    rw [hget2]
    dsimp only
    rw [if_pos hrec1, if_pos hmem1, storeSet_idem]

theorem c8_cancel_date_witness :
    ∃ ev1,
      cancel_event_date c8store 7 ⟨2024, 12, 10⟩ = (Except.ok ev1, storeSet c8store 7 ev1) ∧
      ((generate_recurring_events ev1).map
          (GenOutcome.mapList (List.map forgetCancelDates))
        = (generate_recurring_events c8event).map
            (GenOutcome.mapList (fun l =>
              (l.filter (fun o => !(o.start.date == (⟨2024, 12, 10⟩ : Date)))).map
                forgetCancelDates))) ∧
      cancel_event_date (storeSet c8store 7 ev1) 7 ⟨2024, 12, 10⟩
        = (Except.ok ev1, storeSet c8store 7 ev1) :=
  c8_cancel_date c8store 7 c8event ⟨2024, 12, 10⟩ (by decide) (by decide)

/-- C10: template-level cancellation does not suppress occurrences: with
the flag flipped on any stored template, listing and export produce the
same occurrences (up to the copied flag field itself); the flag only makes
conflict detection skip the template, which checks exactly the
non-cancelled entries. -/
theorem c10_flag_does_not_suppress (store : EventStore) (roster : Roster)
    (i : Nat) (b : Bool) (startF endF : Option DateTime)
    (activityF emailF : Option String) (cstart cend : DateTime)
    (room : Option String) (excl : Option Nat) :
    ((get_events (storeSetFlag store i b) roster startF endF activityF emailF).map
        (List.map forgetFlag)
      = (get_events store roster startF endF activityF emailF).map (List.map forgetFlag)) ∧
    ((export_selected (storeSetFlag store i b) roster activityF emailF).map
        (List.map forgetFlag)
      = (export_selected store roster activityF emailF).map (List.map forgetFlag)) ∧
    (check_event_conflicts store cstart cend room excl
      = check_event_conflicts (store.filter (fun p => !(p.2.is_cancelled)))
          cstart cend room excl) :=
  ⟨get_events_setFlag store i b roster startF endF activityF emailF,
   export_selected_setFlag store i b roster activityF emailF,
   check_filter_cancelled store cstart cend room excl⟩
